import Mathlib

/-!
Verification of the striptease repository (polview data aggregation engine and
TestRunner script executor) against its natural-language specification.

The definitions below are shallow embeddings of the C++ sources:
`program_polview/src/data_stream.cpp`, `program_polview/src/command_stream.cpp`,
`TestRunner/stripconnection.cpp`, `TestRunner/mainwindow.cpp`,
`TestRunner/commandlist.cpp`.  C++ `double` timestamps and values are modelled
as exact rationals, `int64` values as integers, deques as lists (front = head).
-/

namespace Striptease

/-- The SCI channel names (static member `data_stream::sci`,
data_stream.cpp line 38). -/
def sciList : List String :=
  ["DEMQ1", "DEMU1", "DEMU2", "DEMQ2", "PWRQ1", "PWRU1", "PWRU2", "PWRQ2"]

/-- The HK channel names (static member `data_stream::hk`,
data_stream.cpp lines 39-46). -/
def hkList : List String :=
  ["VD0_HK", "VD1_HK", "VD2_HK", "VD3_HK", "VD4_HK", "VD5_HK",
   "ID0_HK", "ID1_HK", "ID2_HK", "ID3_HK", "ID4_HK", "ID5_HK",
   "VG0_HK", "VG1_HK", "VG2_HK", "VG3_HK", "VG4_HK", "VG5_HK", "VG4A_HK", "VG5A_HK",
   "IG0_HK", "IG1_HK", "IG2_HK", "IG3_HK", "IG4_HK", "IG5_HK", "IG4A_HK", "IG5A_HK",
   "VPIN0_HK", "VPIN1_HK", "VPIN2_HK", "VPIN3_HK",
   "IPIN0_HK", "IPIN1_HK", "IPIN2_HK", "IPIN3_HK"]

/-- A decoded JSON frame, as inspected by `data_stream::decode`:
an optional `mjd` member, optional top-level SCI members (int64 values,
`d[k].GetInt64()`), and an optional `bias` object with HK members. -/
structure Frame where
  mjd : Option ℚ
  sci : String → Option ℤ
  bias : Option (String → Option ℤ)

/-- The state of one `data_stream`: the per-channel paired deques `_data`
(mjd deque, value deque), `_last_mjd`, and the window `_ws` in seconds. -/
structure StreamState where
  data : String → List ℚ × List ℚ
  last_mjd : ℚ
  ws : ℚ

/-- `push_back(mjd)` on the first deque paired with `push_back(value)` on the
second (data_stream.cpp lines 125-126 and 132-133). -/
def push (m : ℚ) (v : ℤ) (p : List ℚ × List ℚ) : List ℚ × List ℚ :=
  (p.1 ++ [m], p.2 ++ [(v : ℚ)])

/-- The effect of the two append loops of `data_stream::decode`
(lines 123-136) on the buffer pair of channel `k`: a SCI channel present in
the frame gets `(mjd, value)` appended, an HK channel present in `bias` gets
`(mjd, value)` appended, every other channel is untouched.  The C++ iterates
over the `sci` and `hk` sets and mutates distinct map entries, which is the
same as this per-key description. -/
def decodeChannel (f : Frame) (m : ℚ) (k : String) (p : List ℚ × List ℚ) :
    List ℚ × List ℚ :=
  let p1 := if k ∈ sciList then
      match f.sci k with
      | some v => push m v p
      | none => p
    else p
  match f.bias with
  | none => p1
  | some b =>
    if k ∈ hkList then
      match b k with
      | some v => push m v p1
      | none => p1
    else p1

/-- The trim loop of `data_stream::decode` (lines 142-147): pop the front of
both deques while the front mjd is `< mjd_cut`.  The C++ guard inspects only
the mjd deque; `tail` on the value list mirrors `pop_front`. -/
def trimFront (cut : ℚ) : List ℚ → List ℚ → List ℚ × List ℚ
  | [], vs => ([], vs)
  | m :: ms, vs => if m < cut then trimFront cut ms vs.tail else (m :: ms, vs)

/-- `data_stream::decode` for a frame that carries the required `mjd` member:
append the frame's samples, advance `_last_mjd` when `mjd > _last_mjd`
(line 137), then trim every buffer to `_last_mjd - _ws/86400` (lines 140-147). -/
def decodeWith (m : ℚ) (f : Frame) (st : StreamState) : StreamState :=
  let last := if st.last_mjd < m then m else st.last_mjd
  let cut := last - st.ws / 86400
  { data := fun k =>
      trimFront cut (decodeChannel f m k (st.data k)).1 (decodeChannel f m k (st.data k)).2
    last_mjd := last
    ws := st.ws }

/-- `data_stream::decode` (lines 118-152): a frame without the `mjd` member
returns immediately (lines 120-121), otherwise the frame is processed. -/
def decode (f : Frame) (st : StreamState) : StreamState :=
  Option.elim f.mjd st (fun m => decodeWith m f st)

/-- `data_stream::get(key)` (lines 168-183): empty result when the channel's
mjd deque is empty, otherwise one point per sample with
`x = (_last_mjd - mjd_i) * 86400` and `y = value_i`, in buffer order. -/
def get (st : StreamState) (key : String) : List (ℚ × ℚ) :=
  let src := st.data key
  if src.1.length = 0 then []
  else (src.1.zip src.2).map (fun p => ((st.last_mjd - p.1) * 86400, p.2))

/-- `data_stream::get_stats()` (lines 93-116), viewed as the lookup function
of the returned map: a channel with an empty value deque is skipped
(line 98), a SCI channel is skipped (line 100), otherwise the entry is the
population mean `sum v / N` together with `sq_sum / N`.  The C++ stores
`stdev = sqrt(sq_sum / N)` as a `double`; since the square root of the exact
rational is irrational we keep the radicand `sq_sum / N` as the second
component, the code's stdev being its square root. -/
def get_stats (st : StreamState) (k : String) : Option (ℚ × ℚ) :=
  let v := (st.data k).2
  if v = [] then none
  else if k ∈ sciList then none
  else
    let mean := v.sum / (v.length : ℚ)
    let sq_sum := (v.map (fun x => (x - mean) * (x - mean))).sum
    some (mean, sq_sum / (v.length : ℚ))

/-- The buffer invariant of a stream: equal-length paired deques, mjds
non-decreasing in insertion order, and every buffered mjd at most
`_last_mjd`. -/
def Inv (st : StreamState) : Prop :=
  ∀ k, (st.data k).1.length = (st.data k).2.length ∧
    List.Sorted (· ≤ ·) (st.data k).1 ∧
    ∀ x ∈ (st.data k).1, x ≤ st.last_mjd

lemma sci_hk_disjoint : ∀ k ∈ sciList, k ∉ hkList := by decide

lemma decode_none {f : Frame} (st : StreamState) (h : f.mjd = none) :
    decode f st = st := by
  simp [decode, h]

lemma decode_some {f : Frame} {m : ℚ} (st : StreamState) (h : f.mjd = some m) :
    decode f st = decodeWith m f st := by
  simp [decode, h]

lemma decodeChannel_eq (f : Frame) (m : ℚ) (k : String) (p : List ℚ × List ℚ) :
    decodeChannel f m k p = p ∨
    ∃ v : ℤ, decodeChannel f m k p = (p.1 ++ [m], p.2 ++ [(v : ℚ)]) := by
  unfold decodeChannel
  by_cases hs : k ∈ sciList
  · have hh : k ∉ hkList := sci_hk_disjoint k hs
    cases hv : f.sci k with
    | none =>
      cases f.bias with
      | none => left; simp [hs, hv]
      | some b => left; simp [hs, hv, hh]
    | some v =>
      cases f.bias with
      | none => right; exact ⟨v, by simp [hs, hv, push]⟩
      | some b => right; exact ⟨v, by simp [hs, hv, hh, push]⟩
  · cases f.bias with
    | none => left; simp [hs]
    | some b =>
      by_cases hh : k ∈ hkList
      · cases hv : b k with
        | none => left; simp [hs, hh, hv]
        | some v => right; exact ⟨v, by simp [hs, hh, hv, push]⟩
      · left; simp [hs, hh]

lemma trimFront_length {cut : ℚ} :
    ∀ {ms vs : List ℚ}, ms.length = vs.length →
      (trimFront cut ms vs).1.length = (trimFront cut ms vs).2.length := by
  intro ms
  induction ms with
  | nil => intro vs h; simpa [trimFront] using h
  | cons m ms ih =>
    intro vs h
    cases vs with
    | nil => simp at h
    | cons v vs =>
      by_cases hc : m < cut
      · simpa [trimFront, hc] using ih (by simpa using h)
      · simpa [trimFront, hc] using h

lemma trimFront_mem {cut : ℚ} :
    ∀ {ms vs : List ℚ} {x : ℚ}, x ∈ (trimFront cut ms vs).1 → x ∈ ms := by
  intro ms
  induction ms with
  | nil => intro vs x hx; simp [trimFront] at hx
  | cons m ms ih =>
    intro vs x hx
    by_cases hc : m < cut
    · simp only [trimFront, if_pos hc] at hx
      exact List.mem_cons_of_mem _ (ih hx)
    · simp only [trimFront, if_neg hc] at hx
      exact hx

lemma trimFront_sorted {cut : ℚ} :
    ∀ {ms vs : List ℚ}, List.Sorted (· ≤ ·) ms →
      List.Sorted (· ≤ ·) (trimFront cut ms vs).1 := by
  intro ms
  induction ms with
  | nil => intro vs _; simp [trimFront, List.sorted_nil]
  | cons m ms ih =>
    intro vs h
    by_cases hc : m < cut
    · simp only [trimFront, if_pos hc]
      exact ih h.of_cons
    · simp only [trimFront, if_neg hc]
      exact h

lemma trimFront_window {cut : ℚ} :
    ∀ {ms vs : List ℚ}, List.Sorted (· ≤ ·) ms →
      ∀ x ∈ (trimFront cut ms vs).1, cut ≤ x := by
  intro ms
  induction ms with
  | nil => intro vs _ x hx; simp [trimFront] at hx
  | cons m ms ih =>
    intro vs h x hx
    by_cases hc : m < cut
    · simp only [trimFront, if_pos hc] at hx
      exact ih h.of_cons x hx
    · simp only [trimFront, if_neg hc] at hx
      rcases List.mem_cons.mp hx with rfl | hx
      · exact le_of_not_lt hc
      · exact le_trans (le_of_not_lt hc) (List.rel_of_sorted_cons h x hx)

lemma sorted_append_single {l : List ℚ} {m : ℚ}
    (hs : List.Sorted (· ≤ ·) l) (hb : ∀ x ∈ l, x ≤ m) :
    List.Sorted (· ≤ ·) (l ++ [m]) := by
  rw [List.Sorted, List.pairwise_append]
  refine ⟨hs, List.pairwise_singleton _ _, ?_⟩
  intro a ha b hb2
  rcases List.mem_singleton.mp hb2 with rfl
  exact hb a ha

lemma decodeWith_data (m : ℚ) (f : Frame) (st : StreamState) (k : String) :
    (decodeWith m f st).data k =
      trimFront ((if st.last_mjd < m then m else st.last_mjd) - st.ws / 86400)
        (decodeChannel f m k (st.data k)).1 (decodeChannel f m k (st.data k)).2 := rfl

lemma decodeWith_last_mjd (m : ℚ) (f : Frame) (st : StreamState) :
    (decodeWith m f st).last_mjd = if st.last_mjd < m then m else st.last_mjd := rfl

lemma decodeWith_ws (m : ℚ) (f : Frame) (st : StreamState) :
    (decodeWith m f st).ws = st.ws := rfl

/-- C1: for every data_stream, a decode step (append of the frame's samples
followed by the trim) preserves the buffer invariant — equal-length mjd and
value deques, mjds non-decreasing in insertion order (under monotone frame
arrival, expressed by `st.last_mjd ≤ m`), every buffered mjd at most
`last_mjd` — and afterwards every retained sample satisfies
`mjd ≥ last_mjd - window_seconds/86400`. -/
theorem c1_decode_invariants (st : StreamState) (f : Frame) (m : ℚ)
    (hInv : Inv st) (hm : f.mjd = some m) (hmono : st.last_mjd ≤ m) :
    Inv (decode f st) ∧ (decode f st).ws = st.ws ∧
    ∀ k, ∀ x ∈ ((decode f st).data k).1,
      (decode f st).last_mjd - st.ws / 86400 ≤ x := by
  rw [decode_some st hm]
  have hmL : m ≤ (if st.last_mjd < m then m else st.last_mjd) := by
    split
    · exact le_refl m
    · next h => exact le_of_not_lt h
  have hoL : st.last_mjd ≤ (if st.last_mjd < m then m else st.last_mjd) := by
    split
    · next h => exact h.le
    · exact le_refl _
  have hq : ∀ k,
      (decodeChannel f m k (st.data k)).1.length =
        (decodeChannel f m k (st.data k)).2.length ∧
      List.Sorted (· ≤ ·) (decodeChannel f m k (st.data k)).1 ∧
      ∀ x ∈ (decodeChannel f m k (st.data k)).1,
        x ≤ (if st.last_mjd < m then m else st.last_mjd) := by
    intro k
    obtain ⟨hlen, hsort, hbnd⟩ := hInv k
    rcases decodeChannel_eq f m k (st.data k) with hE | ⟨v, hE⟩
    · rw [hE]
      exact ⟨hlen, hsort, fun x hx => le_trans (hbnd x hx) hoL⟩
    · rw [hE]
      refine ⟨by simp [hlen], ?_, ?_⟩
      · exact sorted_append_single hsort (fun x hx => le_trans (hbnd x hx) hmono)
      · intro x hx
        rcases List.mem_append.mp hx with hx | hx
        · exact le_trans (hbnd x hx) hoL
        · rcases List.mem_singleton.mp hx with rfl
          exact hmL
  refine ⟨?_, decodeWith_ws m f st, ?_⟩
  · intro k
    obtain ⟨hqlen, hqsort, hqbnd⟩ := hq k
    rw [decodeWith_data, decodeWith_last_mjd]
    refine ⟨trimFront_length hqlen, trimFront_sorted hqsort, ?_⟩
    intro x hx
    exact hqbnd x (trimFront_mem hx)
  · intro k x hx
    rw [decodeWith_data] at hx
    rw [decodeWith_last_mjd]
    exact trimFront_window (hq k).2.1 x hx

/-- The initial state of a `data_stream` (constructor, lines 48-59): all
buffers empty, `_last_mjd = 0`, default window 300 s. -/
def st0 : StreamState := { data := fun _ => ([], []), last_mjd := 0, ws := 300 }

/-- A frame carrying `mjd = 1` and one SCI sample. -/
def f0 : Frame :=
  { mjd := some 1
    sci := fun k => if k = "DEMQ1" then some 7 else none
    bias := none }

lemma Inv_st0 : Inv st0 :=
  fun _ => ⟨rfl, List.sorted_nil, by simp [st0]⟩

/-- Witness for C1 at the initial state and a concrete frame. -/
theorem c1_decode_invariants_witness :
    (Inv st0 ∧ f0.mjd = some 1 ∧ st0.last_mjd ≤ 1) ∧
    (Inv (decode f0 st0) ∧ (decode f0 st0).ws = st0.ws ∧
      ∀ k, ∀ x ∈ ((decode f0 st0).data k).1,
        (decode f0 st0).last_mjd - st0.ws / 86400 ≤ x) :=
  ⟨⟨Inv_st0, rfl, by norm_num [st0]⟩,
   c1_decode_invariants st0 f0 1 Inv_st0 rfl (by norm_num [st0])⟩

/-- C9: decoding a frame that lacks the required `mjd` member leaves the
stream state entirely unchanged (decode returns before any mutation). -/
theorem c9_decode_no_mjd (f : Frame) (st : StreamState) (h : f.mjd = none) :
    decode f st = st := decode_none st h

/-- A state holding one sample at mjd 0 in channel DEMQ1. -/
def st8 : StreamState :=
  { data := fun k => if k = "DEMQ1" then ([0], [5]) else ([], [])
    last_mjd := 0
    ws := 300 }

/-- A frame with only the `mjd` member: no SCI key, no `bias` object. -/
def f8 : Frame := { mjd := some 1, sci := fun _ => none, bias := none }

/-- A frame without `mjd` (but with SCI members, which are never reached). -/
def f9 : Frame := { mjd := none, sci := fun _ => some 3, bias := none }

/-- Witness for C9: a concrete mjd-less frame leaves a concrete state
untouched. -/
theorem c9_decode_no_mjd_witness : decode f9 st8 = st8 :=
  c9_decode_no_mjd f9 st8 rfl

/-- C8 counterexample: decoding the mjd-only frame `f8` over state `st8`
changes the DEMQ1 buffer (the sample at mjd 0 is evicted by the trim that
follows the advance of `last_mjd` to 1), refuting "all buffer contents are
unchanged by the decode". -/
theorem c8_counterexample : (decode f8 st8).data "DEMQ1" ≠ st8.data "DEMQ1" := by
  have hcut : (0 : ℚ) < (if st8.last_mjd < 1 then 1 else st8.last_mjd) - st8.ws / 86400 := by
    norm_num [st8]
  have h : (decode f8 st8).data "DEMQ1" = ([], []) := by
    rw [decode_some st8 rfl, decodeWith_data]
    have hch : decodeChannel f8 1 "DEMQ1" (st8.data "DEMQ1") = ([0], [5]) := rfl
    rw [hch]
    simp only [trimFront, if_pos hcut]
    rfl
  rw [h]
  simp [st8]

/-- C8 (amended): decoding a frame that has `mjd` but no SCI key and no
`bias` appends nothing and advances `last_mjd` to `max last_mjd m`, but the
unconditional trim still runs: every buffer becomes its trim at the new
cutoff `max last_mjd m - ws/86400`. -/
theorem c8_amended (st : StreamState) (f : Frame) (m : ℚ)
    (hm : f.mjd = some m) (hsci : ∀ k, f.sci k = none) (hbias : f.bias = none) :
    (decode f st).last_mjd = max st.last_mjd m ∧
    ∀ k, (decode f st).data k =
      trimFront (max st.last_mjd m - st.ws / 86400) (st.data k).1 (st.data k).2 := by
  rw [decode_some st hm]
  have hmax : (if st.last_mjd < m then m else st.last_mjd) = max st.last_mjd m := by
    split
    · next h => exact (max_eq_right h.le).symm
    · next h => exact (max_eq_left (le_of_not_lt h)).symm
  have hch : ∀ k, decodeChannel f m k (st.data k) = st.data k := by
    intro k
    simp [decodeChannel, hbias, hsci k]
  constructor
  · rw [decodeWith_last_mjd, hmax]
  · intro k
    rw [decodeWith_data, hch k, hmax]

/-- Witness for the amended C8 at the concrete frame and state of the
counterexample. -/
theorem c8_amended_witness :
    (decode f8 st8).last_mjd = max st8.last_mjd 1 ∧
    (decode f8 st8).data "DEMQ1" =
      trimFront (max st8.last_mjd 1 - st8.ws / 86400)
        (st8.data "DEMQ1").1 (st8.data "DEMQ1").2 :=
  ⟨(c8_amended st8 f8 1 rfl (fun _ => rfl) rfl).1,
   (c8_amended st8 f8 1 rfl (fun _ => rfl) rfl).2 "DEMQ1"⟩

lemma getElem?_zip_eq :
    ∀ (l1 l2 : List ℚ) (i : ℕ),
      (l1.zip l2)[i]? = (l1[i]?).bind (fun a => (l2[i]?).map (fun b => (a, b))) := by
  intro l1
  induction l1 with
  | nil => intro l2 i; simp
  | cons a l1 ih =>
    intro l2 i
    cases l2 with
    | nil => simp
    | cons b l2 =>
      cases i with
      | zero => simp
      | succ i => simpa using ih l2 i

lemma pairwise_zip_of_pairwise_fst {R : ℚ → ℚ → Prop} :
    ∀ {l1 l2 : List ℚ}, List.Pairwise R l1 →
      List.Pairwise (fun p q : ℚ × ℚ => R p.1 q.1) (l1.zip l2) := by
  intro l1
  induction l1 with
  | nil => intro l2 _; simp
  | cons a l1 ih =>
    intro l2 h
    cases l2 with
    | nil => simp
    | cons b l2 =>
      rcases List.pairwise_cons.mp h with ⟨ha, h1⟩
      refine List.pairwise_cons.mpr ⟨?_, ih h1⟩
      rintro ⟨x, y⟩ hp
      exact ha x (List.of_mem_zip hp).1

/-- C2: the snapshot `data_stream::get(key)` returns the channel's samples in
buffer order as points `x_i = (last_mjd - mjd_i) * 86400`, `y_i = value_i`;
it returns the empty sequence for an empty channel; and under the buffer
invariant (equal lengths, sorted mjds) the x values are non-increasing. -/
theorem c2_snapshot (st : StreamState) (key : String)
    (hlen : (st.data key).1.length = (st.data key).2.length)
    (hsort : List.Sorted (· ≤ ·) (st.data key).1) :
    ((st.data key).1 = [] → get st key = []) ∧
    (get st key).length = (st.data key).1.length ∧
    (∀ i : ℕ, (get st key)[i]? =
      ((st.data key).1[i]?).bind (fun mj => ((st.data key).2[i]?).map
        (fun v => ((st.last_mjd - mj) * 86400, v)))) ∧
    List.Pairwise (· ≥ ·) ((get st key).map Prod.fst) := by
  by_cases hemp : (st.data key).1 = []
  · have hget : get st key = [] := by
      simp only [get]
      rw [if_pos (by rw [List.length_eq_zero]; exact hemp)]
    refine ⟨fun _ => hget, ?_, ?_, ?_⟩
    · rw [hget, hemp]
      rfl
    · intro i
      rw [hget, hemp]
      simp
    · rw [hget]
      simp
  · have hget : get st key = ((st.data key).1.zip (st.data key).2).map
        (fun p => ((st.last_mjd - p.1) * 86400, p.2)) := by
      simp only [get]
      rw [if_neg (by rw [List.length_eq_zero]; exact hemp)]
    refine ⟨fun h => absurd h hemp, ?_, ?_, ?_⟩
    · rw [hget]
      simp [List.length_zip, ← hlen]
    · intro i
      rw [hget, List.getElem?_map, getElem?_zip_eq]
      cases h1 : (st.data key).1[i]? <;> cases h2 : (st.data key).2[i]? <;> simp
    · rw [hget, List.map_map, List.pairwise_map]
      have h1 : List.Pairwise
          (fun a b : ℚ => (st.last_mjd - b) * 86400 ≤ (st.last_mjd - a) * 86400)
          (st.data key).1 :=
        hsort.imp (fun hab =>
          mul_le_mul_of_nonneg_right (sub_le_sub_left hab _) (by norm_num))
      exact pairwise_zip_of_pairwise_fst h1

/-- A state with a sorted two-sample HK buffer, used for the C2 witness. -/
def stC2 : StreamState :=
  { data := fun k => if k = "VD0_HK" then ([1, 2], [10, 20]) else ([], [])
    last_mjd := 2
    ws := 300 }

/-- Witness for C2 at a concrete sorted buffer. -/
theorem c2_snapshot_witness :
    ((stC2.data "VD0_HK").1.length = (stC2.data "VD0_HK").2.length ∧
      List.Sorted (· ≤ ·) (stC2.data "VD0_HK").1) ∧
    (((stC2.data "VD0_HK").1 = [] → get stC2 "VD0_HK" = []) ∧
      (get stC2 "VD0_HK").length = (stC2.data "VD0_HK").1.length ∧
      (∀ i : ℕ, (get stC2 "VD0_HK")[i]? =
        ((stC2.data "VD0_HK").1[i]?).bind (fun mj => ((stC2.data "VD0_HK").2[i]?).map
          (fun v => ((stC2.last_mjd - mj) * 86400, v)))) ∧
      List.Pairwise (· ≥ ·) ((get stC2 "VD0_HK").map Prod.fst)) :=
  ⟨⟨rfl, by norm_num [stC2, List.sorted_cons]⟩,
   c2_snapshot stC2 "VD0_HK" rfl (by norm_num [stC2, List.sorted_cons])⟩

lemma var_nonneg (v : List ℚ) (c : ℚ) :
    0 ≤ (v.map (fun x => (x - c) * (x - c))).sum / (v.length : ℚ) := by
  apply div_nonneg
  · apply List.sum_nonneg
    intro x hx
    rcases List.mem_map.mp hx with ⟨y, _, rfl⟩
    exact mul_self_nonneg _
  · exact_mod_cast Nat.zero_le _

/-- C3: `get_stats` skips every SCI channel and every empty channel (their
keys are absent from the returned map, the "undefined" sentinel), and for a
channel with samples it returns the population mean `sum v / N` together with
the radicand `sum (v - mean)^2 / N` of the population standard deviation: the
radicand is non-negative and the code's stdev, its square root, squares back
to it. -/
theorem c3_get_stats (st : StreamState) (k : String) :
    (k ∈ sciList → get_stats st k = none) ∧
    ((st.data k).2 = [] → get_stats st k = none) ∧
    ((st.data k).2 ≠ [] → k ∉ sciList →
      get_stats st k = some
        ((st.data k).2.sum / ((st.data k).2.length : ℚ),
          ((st.data k).2.map (fun x =>
            (x - (st.data k).2.sum / ((st.data k).2.length : ℚ)) *
            (x - (st.data k).2.sum / ((st.data k).2.length : ℚ)))).sum /
          ((st.data k).2.length : ℚ)) ∧
      ∀ p : ℚ × ℚ, get_stats st k = some p →
        0 ≤ p.2 ∧ Real.sqrt (p.2 : ℝ) ^ 2 = (p.2 : ℝ)) := by
  refine ⟨?_, ?_, ?_⟩
  · intro hk
    by_cases h : (st.data k).2 = [] <;> simp [get_stats, h, hk]
  · intro h
    simp [get_stats, h]
  · intro hne hk
    have heq : get_stats st k = some
        ((st.data k).2.sum / ((st.data k).2.length : ℚ),
          ((st.data k).2.map (fun x =>
            (x - (st.data k).2.sum / ((st.data k).2.length : ℚ)) *
            (x - (st.data k).2.sum / ((st.data k).2.length : ℚ)))).sum /
          ((st.data k).2.length : ℚ)) := by
      simp [get_stats, hne, hk]
    refine ⟨heq, ?_⟩
    intro p hp
    rw [heq] at hp
    obtain rfl := Option.some_inj.mp hp
    refine ⟨var_nonneg _ _, Real.sq_sqrt ?_⟩
    exact_mod_cast var_nonneg _ _

/-- A state with three samples in HK channel VG3_HK (spec scenario S3). -/
def stStats : StreamState :=
  { data := fun k => if k = "VG3_HK" then ([1, 2, 3], [10, 12, 14]) else ([], [])
    last_mjd := 3
    ws := 300 }

/-- Witness for C3: mean 12 and variance 8/3 for values 10, 12, 14; a SCI
channel and an empty channel are both absent. -/
theorem c3_get_stats_witness :
    get_stats stStats "VG3_HK" = some (12, 8 / 3) ∧
    get_stats stStats "DEMQ1" = none ∧
    get_stats stStats "VD0_HK" = none := by
  refine ⟨?_, (c3_get_stats stStats "DEMQ1").1 (by decide),
    (c3_get_stats stStats "VD0_HK").2.1 rfl⟩
  have h := ((c3_get_stats stStats "VG3_HK").2.2 (by simp [stStats]) (by decide)).1
  rw [h]
  norm_num [stStats]

/-! ## command_stream (program_polview/src/command_stream.cpp) -/

/-- `S_IRUSR` (owner read permission bit). -/
def S_IRUSR : ℕ := 256

/-- `S_IWUSR` (owner write permission bit). -/
def S_IWUSR : ℕ := 128

/-- `randomString()` (command_stream.cpp lines 17-33): ten characters, each
`rand() % 26 + 65`; `r` supplies the successive `rand()` results. -/
def randomString (r : ℕ → ℕ) : String :=
  String.mk ((List.range 10).map (fun i => Char.ofNat (r i % 26 + 65)))

/-- The path template of `command_stream::add_pol` (line 66). -/
def fifoPath (pol suffix : String) : String :=
  "/tmp/strip." ++ pol ++ "." ++ suffix

/-- The retry loop of `command_stream::add_pol` (lines 65-77): up to `n`
attempts, each building a path from a fresh suffix and calling
`mkfifo(path, S_IRUSR|S_IWUSR)` (modelled by the oracle `mk`); the first
successful attempt breaks with its path, exhaustion throws a runtime error. -/
def add_pol_loop (mk : String → ℕ → Bool) (pol : String) (suf : ℕ → String) :
    ℕ → ℕ → Except Unit String
  | _, 0 => Except.error ()
  | i, n + 1 =>
    if mk (fifoPath pol (suf i)) (S_IRUSR ||| S_IWUSR) then
      Except.ok (fifoPath pol (suf i))
    else add_pol_loop mk pol suf (i + 1) n

/-- `command_stream::add_pol`: five attempts, the suffix of attempt `i` drawn
freshly as `randomString` over the random supply `r i`. -/
def add_pol (mk : String → ℕ → Bool) (r : ℕ → ℕ → ℕ) (pol : String) :
    Except Unit String :=
  add_pol_loop mk pol (fun i => randomString (r i)) 0 5

lemma toNat_ofNat_of_lt {n : ℕ} (h : n < 55296) : (Char.ofNat n).toNat = n := by
  rw [Char.ofNat, dif_pos (Or.inl h)]
  rfl

lemma add_pol_loop_error (mk : String → ℕ → Bool) (pol : String) (suf : ℕ → String) :
    ∀ (n i : ℕ),
      (∀ j < n, mk (fifoPath pol (suf (i + j))) (S_IRUSR ||| S_IWUSR) = false) →
      add_pol_loop mk pol suf i n = Except.error () := by
  intro n
  induction n with
  | zero => intro i _; rfl
  | succ n ih =>
    intro i h
    have h0 := h 0 (Nat.succ_pos n)
    rw [Nat.add_zero] at h0
    simp only [add_pol_loop, h0]
    simp only [Bool.false_eq_true, if_false]
    exact ih (i + 1) (fun j hj => by
      have hh := h (j + 1) (Nat.succ_lt_succ hj)
      rwa [show i + (j + 1) = i + 1 + j by omega] at hh)

lemma add_pol_loop_ok (mk : String → ℕ → Bool) (pol : String) (suf : ℕ → String) :
    ∀ (n i k : ℕ), k < n →
      (∀ j < k, mk (fifoPath pol (suf (i + j))) (S_IRUSR ||| S_IWUSR) = false) →
      mk (fifoPath pol (suf (i + k))) (S_IRUSR ||| S_IWUSR) = true →
      add_pol_loop mk pol suf i n = Except.ok (fifoPath pol (suf (i + k))) := by
  intro n
  induction n with
  | zero => intro i k hk _ _; exact absurd hk (Nat.not_lt_zero k)
  | succ n ih =>
    intro i k hk hfail hsucc
    cases k with
    | zero =>
      rw [Nat.add_zero] at hsucc
      simp [add_pol_loop, hsucc]
    | succ k2 =>
      have h0 := hfail 0 (Nat.succ_pos k2)
      rw [Nat.add_zero] at h0
      simp only [add_pol_loop, h0, Bool.false_eq_true, if_false]
      have hf2 : ∀ j < k2,
          mk (fifoPath pol (suf (i + 1 + j))) (S_IRUSR ||| S_IWUSR) = false := by
        intro j hj
        have hh := hfail (j + 1) (Nat.succ_lt_succ hj)
        rwa [show i + (j + 1) = i + 1 + j by omega] at hh
      have hs2 : mk (fifoPath pol (suf (i + 1 + k2))) (S_IRUSR ||| S_IWUSR) = true := by
        rwa [show i + (k2 + 1) = i + 1 + k2 by omega] at hsucc
      have hrec := ih (i + 1) k2 (by omega) hf2 hs2
      rw [hrec, show i + 1 + k2 = i + (k2 + 1) by omega]

/-- C7: every generated suffix has exactly 10 characters, all uppercase ASCII
letters; `add_pol` allocates `/tmp/strip.<pol>.<suffix>` by the `mkfifo`
oracle with owner read/write permission bits, retries up to 5 attempts each
with a freshly drawn suffix, returns the path of the first successful
attempt, and fails after 5 consecutive failures. -/
theorem c7_add_pol (mk : String → ℕ → Bool) (r : ℕ → ℕ → ℕ) (pol : String) :
    (∀ i : ℕ, (randomString (r i)).length = 10 ∧
      ∀ c ∈ (randomString (r i)).toList, 65 ≤ c.toNat ∧ c.toNat ≤ 90) ∧
    ((∀ i < 5, mk (fifoPath pol (randomString (r i))) (S_IRUSR ||| S_IWUSR) = false) →
      add_pol mk r pol = Except.error ()) ∧
    (∀ k < 5,
      (∀ i < k, mk (fifoPath pol (randomString (r i))) (S_IRUSR ||| S_IWUSR) = false) →
      mk (fifoPath pol (randomString (r k))) (S_IRUSR ||| S_IWUSR) = true →
      add_pol mk r pol = Except.ok (fifoPath pol (randomString (r k)))) := by
  refine ⟨?_, ?_, ?_⟩
  · intro i
    constructor
    · simp [randomString, String.length]
    · intro c hc
      have hc2 : c ∈ (List.range 10).map (fun j => Char.ofNat (r i j % 26 + 65)) := hc
      rcases List.mem_map.mp hc2 with ⟨j, _, rfl⟩
      have hlt : r i j % 26 < 26 := Nat.mod_lt _ (by norm_num)
      rw [toNat_ofNat_of_lt (by omega)]
      omega
  · intro h
    exact add_pol_loop_error mk pol _ 5 0 (fun j hj => by
      simpa using h j hj)
  · intro k hk hfail hsucc
    refine add_pol_loop_ok mk pol _ 5 0 k hk (fun j hj => by simpa using hfail j hj)
      (by simpa using hsucc) |>.trans ?_
    simp

/-- Witness for C7: with an always-failing mkfifo oracle the allocation
fails; with an always-succeeding oracle it returns the first path. -/
theorem c7_add_pol_witness :
    add_pol (fun _ _ => false) (fun _ _ => 0) "G0" = Except.error () ∧
    add_pol (fun _ _ => true) (fun _ _ => 0) "G0" =
      Except.ok (fifoPath "G0" (randomString (fun _ => 0))) :=
  ⟨(c7_add_pol (fun _ _ => false) (fun _ _ => 0) "G0").2.1 (fun _ _ => rfl),
   (c7_add_pol (fun _ _ => true) (fun _ _ => 0) "G0").2.2 0 (by norm_num)
     (fun i hi => absurd hi (Nat.not_lt_zero i)) rfl⟩

/-! ## StripConnection (TestRunner/stripconnection.cpp) -/

/-- A notification emitted by `StripConnection::commandCompleted`: the
`success()` or `error(message)` Qt signal. -/
inductive Notif where
  | success
  | error (msg : String)
deriving DecidableEq

/-- The observable input of `commandCompleted`: whether `reply->error()` was
set (with its `errorString`), and the response body — `none` when
`QJsonDocument::fromJson(rawAnswer)` is not an object (parse failure or
non-object document), otherwise the object's string fields.  A missing or
non-string `status` field reads back as the empty string via
`QJsonValue::toString`. -/
structure Reply where
  transportError : Bool
  transportMsg : String
  body : Option (List (String × String))

/-- `QString::toUpper` restricted to the ASCII strings that occur here:
upper-case every character. -/
def upperQ (s : String) : String := String.mk (s.data.map Char.toUpper)

/-- Does the body parse as a JSON object whose `status` equals "OK" after
upper-casing? -/
def okBody (r : Reply) : Bool :=
  match r.body with
  | some fields => upperQ ((fields.lookup "status").getD "") == "OK"
  | none => false

/-- `StripConnection::commandCompleted` (stripconnection.cpp lines 61-104):
the ordered list of signals emitted for one finished reply.  A transport
error emits `error(errorString)` (lines 65-69); an object body missing
`status` emits an invalid-JSON error (lines 77-80); then the upper-cased
`status` is compared with "OK", emitting either an error-status error or
`success()` (lines 82-91); a non-object body emits an invalid-JSON error
(lines 92-96).  Message texts are abbreviated. -/
def commandCompleted (r : Reply) : List Notif :=
  let e1 : List Notif := if r.transportError then [Notif.error r.transportMsg] else []
  match r.body with
  | some fields =>
    let statusField := fields.lookup "status"
    let e2 : List Notif :=
      if statusField.isSome then []
      else [Notif.error "Invalid JSON returned by the server: no status"]
    let status := statusField.getD ""
    let e3 : List Notif :=
      if upperQ status ≠ "OK" then [Notif.error "The server returned an error status"]
      else [Notif.success]
    e1 ++ e2 ++ e3
  | none => e1 ++ [Notif.error "Invalid JSON returned by the server"]

/-- A completed request with a transport error whose body nevertheless
carries `status: "OK"` (e.g. an HTTP error status with a full body). -/
def replyCE : Reply :=
  { transportError := true
    transportMsg := "Connection refused"
    body := some [("status", "OK")] }

/-- C4 counterexample: for `replyCE` both `error` and `success` are emitted
(two notifications), refuting "exactly one of the two notifications is
emitted" and their mutual exclusivity. -/
theorem c4_counterexample :
    Notif.error "Connection refused" ∈ commandCompleted replyCE ∧
    Notif.success ∈ commandCompleted replyCE ∧
    (commandCompleted replyCE).length ≠ 1 := by
  have h : commandCompleted replyCE =
      [Notif.error "Connection refused", Notif.success] := rfl
  rw [h]
  refine ⟨by simp, by simp, by simp⟩

/-- C4 (amended): `success()` is emitted iff the body parses as a JSON object
whose `status` upper-cases to "OK", independently of transport errors; some
`error(message)` is emitted iff a transport error occurred or the body is not
such an OK object; the two notifications are mutually exclusive for every
request without a transport error (on a transport error with an OK body both
are emitted); and at least one notification is always emitted. -/
theorem c4_amended (r : Reply) :
    (Notif.success ∈ commandCompleted r ↔ okBody r = true) ∧
    ((∃ msg, Notif.error msg ∈ commandCompleted r) ↔
      (r.transportError = true ∨ okBody r = false)) ∧
    (r.transportError = false →
      ¬(Notif.success ∈ commandCompleted r ∧
        ∃ msg, Notif.error msg ∈ commandCompleted r)) ∧
    commandCompleted r ≠ [] := by
  rcases r with ⟨te, tm, body⟩
  cases body with
  | none => cases te <;> simp [commandCompleted, okBody]
  | some fields =>
    cases hl : fields.lookup "status" with
    | none =>
      have hup : ¬ upperQ "" = "OK" := by decide
      cases te <;> simp [commandCompleted, okBody, hl, hup]
    | some s =>
      by_cases hok : upperQ s = "OK"
      · cases te <;> simp [commandCompleted, okBody, hl, hok]
      · cases te <;> simp [commandCompleted, okBody, hl, hok]

/-- A clean request: no transport error, object body with lowercase ok
status. -/
def replyOK : Reply :=
  { transportError := false, transportMsg := "", body := some [("status", "ok")] }

/-- Witness for the amended C4 at a concrete reply: lowercase "ok" yields
`success()` and no error notification. -/
theorem c4_amended_witness :
    Notif.success ∈ commandCompleted replyOK ∧
    ¬(Notif.success ∈ commandCompleted replyOK ∧
      ∃ msg, Notif.error msg ∈ commandCompleted replyOK) :=
  ⟨(c4_amended replyOK).1.mpr rfl, (c4_amended replyOK).2.2.1 rfl⟩

/-! ## MainWindow executor (TestRunner/mainwindow.cpp) -/

/-- The outcome of the not-logged-in branch of
`MainWindow::on_command_timer_triggered` (lines 114-138): either the catch
block runs (critical message box and `commandTimer->stop()`), or control
falls through to the command scan. -/
inductive LoginTickResult where
  | fatalStop
  | proceeded
deriving DecidableEq

/-- The spin-wait `while (connection->commandRunning() && retryCount > 0)`
(lines 119-123): `running j` tells whether the login request is still running
after `j` sleeps of 100 ms; returns the total number of sleeps performed. -/
def spinWait (running : ℕ → Bool) : ℕ → ℕ → ℕ
  | slept, 0 => slept
  | slept, r + 1 => if running slept then spinWait running (slept + 1) r else slept

/-- The not-logged-in branch (mainwindow.cpp lines 114-138): `login()` may
throw (config-file syntax error), which the catch turns into fatalStop;
otherwise after the spin-wait the code throws "Unable to get a login token"
when the request is NO LONGER running (`!commandRunning()`) and logs
"Connection to the server has been established, good!" and proceeds when it
is still running. -/
def loginPhase (loginThrows : Bool) (running : ℕ → Bool) : LoginTickResult :=
  if loginThrows then LoginTickResult.fatalStop
  else if running (spinWait running 0 5) then LoginTickResult.proceeded
  else LoginTickResult.fatalStop

/-- C5 evaluation: the code's spin-wait check is inverted.  A login request
that completes after the first 100 ms sleep ends in the fatal branch (the
claim says it proceeds), a request still running after the whole spin-wait
proceeds (the claim says fatal stop); only the throwing-login case matches
the claim. -/
theorem c5_login_spin_inverted :
    loginPhase false (fun n => n == 0) = LoginTickResult.fatalStop ∧
    loginPhase false (fun _ => true) = LoginTickResult.proceeded ∧
    loginPhase true (fun _ => false) = LoginTickResult.fatalStop := by
  refine ⟨rfl, rfl, rfl⟩

/-- The executor state touched by `MainWindow::on_command_success`: the
per-command `time` stamps (`executed_at`), `currentCommandIdx`, and the
progress bar value. -/
structure ExecState where
  times : List (Option ℚ)
  currentCommandIdx : ℤ
  progressValue : ℕ
deriving DecidableEq

/-- `MainWindow::updateProgressBar` value (lines 240-251): the number of
commands whose time is set. -/
def countCompleted (ts : List (Option ℚ)) : ℕ :=
  (ts.filter (fun t => t.isSome)).length

/-- `MainWindow::on_command_success` (lines 190-198): only when
`currentCommandIdx != -1` it stamps the current command's time, resets the
index to -1 and updates the progress bar; otherwise nothing happens. -/
def on_command_success (now : ℚ) (st : ExecState) : ExecState :=
  if st.currentCommandIdx ≠ -1 then
    let ts := st.times.set st.currentCommandIdx.toNat (some now)
    { times := ts, currentCommandIdx := -1, progressValue := countCompleted ts }
  else st

/-- C10: a success notification arriving when no command is current
(`currentCommandIdx = -1`) is a no-op on the executor state. -/
theorem c10_success_idle_noop (now : ℚ) (st : ExecState)
    (h : st.currentCommandIdx = -1) : on_command_success now st = st := by
  simp [on_command_success, h]

/-- An idle executor state with one stamped and one pending command. -/
def stIdle : ExecState :=
  { times := [none, some 2], currentCommandIdx := -1, progressValue := 1 }

/-- Witness for C10 at a concrete idle state. -/
theorem c10_success_idle_noop_witness : on_command_success 5 stIdle = stIdle :=
  c10_success_idle_noop 5 stIdle rfl

/-! ## CommandList (TestRunner/commandlist.cpp) -/

/-- `enum class CommandType` (commandlist.hpp lines 8-13). -/
inductive CommandType where
  | None
  | Command
  | Log
  | Tag
deriving DecidableEq

/-- `struct Command` (commandlist.hpp lines 15-20): null-able execution time,
type, endpoint url, parameters map. -/
structure Command where
  time : Option ℚ
  type : CommandType
  url : String
  parameters : List (String × String)
deriving DecidableEq

/-- One element of the parsed JSON array as inspected by
`CommandList::loadFromJson`: either not an object, or an object with its
optional string `kind`, optional `path`, and optional `command` object. -/
inductive JElem where
  | nonObject
  | obj (kind : Option String) (path : Option String)
      (command : Option (List (String × String)))
deriving DecidableEq

/-- The `kind` dispatch of `loadFromJson` (commandlist.cpp lines 100-113):
missing or unrecognized kind maps to `CommandType::None`. -/
def elemType : Option String → CommandType
  | none => CommandType.None
  | some s =>
    if s = "command" then CommandType.Command
    else if s = "log" then CommandType.Log
    else if s = "tag" then CommandType.Tag
    else CommandType.None

/-- The element loop of `CommandList::loadFromJson` (lines 91-126): a
non-object element throws; an object lacking `path` or `command` is skipped
(`continue`, without advancing `idx`); otherwise a command with a null time
is appended and `idx` advances. -/
def loadGo : List JElem → ℕ → Except String (List Command)
  | [], _ => Except.ok []
  | JElem.nonObject :: _, idx =>
    Except.error ("Element " ++ toString idx ++ " is not an object")
  | JElem.obj kind (some p) (some c) :: rest, idx =>
    Except.map
      (fun l => { time := none, type := elemType kind, url := p, parameters := c } :: l)
      (loadGo rest (idx + 1))
  | JElem.obj _ none _ :: rest, idx => loadGo rest idx
  | JElem.obj _ (some _) none :: rest, idx => loadGo rest idx

/-- `CommandList::loadFromJson` (lines 76-127): a document that is not an
array throws "JSON data is not an array"; an array is folded by `loadGo`
starting from element counter 1. -/
def loadFromJson : Option (List JElem) → Except String (List Command)
  | none => Except.error "JSON data is not an array"
  | some elems => loadGo elems 1

/-- The per-element extraction: object elements possessing both `path` and
`command` yield a command, everything else yields nothing. -/
def toCmd : JElem → Option Command
  | JElem.nonObject => none
  | JElem.obj kind (some p) (some c) =>
    some { time := none, type := elemType kind, url := p, parameters := c }
  | JElem.obj _ none _ => none
  | JElem.obj _ (some _) none => none

lemma loadGo_error_of_mem :
    ∀ (elems : List JElem) (idx : ℕ), JElem.nonObject ∈ elems →
      ∃ msg, loadGo elems idx = Except.error msg := by
  intro elems
  induction elems with
  | nil => intro idx h; simp at h
  | cons e rest ih =>
    intro idx h
    cases e with
    | nonObject => exact ⟨_, rfl⟩
    | obj kind path cmd =>
      have h2 : JElem.nonObject ∈ rest := by
        rcases List.mem_cons.mp h with h1 | h1
        · simp at h1
        · exact h1
      cases path with
      | none => exact ih idx h2
      | some p =>
        cases cmd with
        | none => exact ih idx h2
        | some c =>
          obtain ⟨msg, hm⟩ := ih (idx + 1) h2
          exact ⟨msg, by simp [loadGo, hm, Except.map]⟩

lemma loadGo_ok :
    ∀ (elems : List JElem) (idx : ℕ), (∀ e ∈ elems, e ≠ JElem.nonObject) →
      loadGo elems idx = Except.ok (elems.filterMap toCmd) := by
  intro elems
  induction elems with
  | nil => intro idx _; simp [loadGo]
  | cons e rest ih =>
    intro idx h
    have hrest : ∀ e2 ∈ rest, e2 ≠ JElem.nonObject :=
      fun e2 he => h e2 (List.mem_cons_of_mem _ he)
    cases e with
    | nonObject => exact absurd rfl (h _ (List.mem_cons_self _ _))
    | obj kind path cmd =>
      cases path with
      | none => simpa [loadGo, toCmd, List.filterMap_cons] using ih idx hrest
      | some p =>
        cases cmd with
        | none => simpa [loadGo, toCmd, List.filterMap_cons] using ih idx hrest
        | some c =>
          simp only [loadGo]
          rw [ih (idx + 1) hrest]
          simp [Except.map, toCmd, List.filterMap_cons]

/-- C6: loading from a non-array document is a load error; an array with a
non-object element is a load error; an all-object array loads exactly the
elements possessing both `path` and `command`, in order (objects lacking
them, in particular those lacking both, are skipped silently). -/
theorem c6_loadFromJson (elems : List JElem) :
    loadFromJson none = Except.error "JSON data is not an array" ∧
    (JElem.nonObject ∈ elems → ∃ msg, loadFromJson (some elems) = Except.error msg) ∧
    ((∀ e ∈ elems, e ≠ JElem.nonObject) →
      loadFromJson (some elems) = Except.ok (elems.filterMap toCmd)) := by
  refine ⟨rfl, ?_, ?_⟩
  · intro h
    exact loadGo_error_of_mem elems 1 h
  · intro h
    exact loadGo_ok elems 1 h

/-- An array containing a non-object element. -/
def elemsBad : List JElem :=
  [JElem.obj none (some "/a") (some []), JElem.nonObject]

/-- An all-object array: one element with `path` and `command`, one lacking
both, one with only `kind`. -/
def elemsGood : List JElem :=
  [JElem.obj (some "command") (some "/rest/x") (some [("base_addr", "A")]),
   JElem.obj none none none,
   JElem.obj (some "log") none (some [])]

/-- Witness for C6 at concrete arrays: the non-object element errors; the
all-object array keeps exactly the path-and-command element. -/
theorem c6_loadFromJson_witness :
    (∃ msg, loadFromJson (some elemsBad) = Except.error msg) ∧
    loadFromJson (some elemsGood) = Except.ok
      [{ time := none, type := CommandType.Command, url := "/rest/x",
         parameters := [("base_addr", "A")] }] := by
  constructor
  · exact (c6_loadFromJson elemsBad).2.1 (by decide)
  · rw [(c6_loadFromJson elemsGood).2.2 (by decide)]
    rfl

end Striptease
